import Mathlib

/-!
Verification of tools/autotag/util/release_data.py.

The Python module is shallowly embedded: pure computations become Lean
functions over `List Char` / `List Nat`, remote API calls and the user
confirmation prompt become explicit oracle arguments (their outcomes are
inputs), and Python exceptions become `Except` values.  Python `dict`s are
modelled as association lists with Python insertion semantics (`pyInsert`):
an assignment to an existing key replaces the value in place, an assignment
to a fresh key appends.
-/

namespace ReleaseDataPy

/-! ## Generic helpers: Python dict and string primitives -/

/-- Python `str.split(sep)` for a single-character separator, on the
character list of the string.  Splitting the empty string yields `[[]]`,
exactly as `"".split(sep)` yields `[""]` in Python. -/
def splitOnC (sep : Char) : List Char → List (List Char)
  | [] => [[]]
  | c :: cs =>
    match splitOnC sep cs with
    | [] => [[]]
    | g :: gs => if c = sep then [] :: g :: gs else (c :: g) :: gs

/-- Python dict assignment `m[k] = v`: if some key of `m` is equal to `k`
(under the dict's key equality `eqk`), the stored value is replaced in
place, keeping the position and the originally stored key; otherwise the
new pair is appended at the end (insertion order). -/
def pyInsert {κ ν : Type} (eqk : κ → κ → Bool) (m : List (κ × ν)) (k : κ) (v : ν) :
    List (κ × ν) :=
  if m.any (fun p => eqk p.1 k) then
    m.map (fun p => if eqk p.1 k then (p.1, v) else p)
  else
    m ++ [(k, v)]

/-- Python dict lookup `m[k]` / `k in m`: the value stored at the unique
key equal to `k`, if any. -/
def pyLookup {κ ν : Type} (eqk : κ → κ → Bool) (m : List (κ × ν)) (k : κ) : Option ν :=
  (m.find? (fun p => eqk p.1 k)).map (fun p => p.2)

/-- Number of occurrences of the character `.` in a string
(Python `s.count(".")` for the single-character needle). -/
def countDots (s : String) : Nat := (s.toList.filter (fun c => c == '.')).length

/-- Number of dotted components of a string: `len(s.split("."))`. -/
def numComponents (s : String) : Nat := (splitOnC '.' s.toList).length

/-! ## packaging.version.Version

Only release-only versions (dotted numeric sequences, as produced by the
`rocm-` tag pattern) reach `Version` in this module, so a version value is
embedded as its release tuple `List Nat`.  PEP 440 compares release tuples
after right-padding the shorter with zeros; in particular two spellings
that differ only in trailing `.0` segments are equal. -/

/-- Release tuple with trailing zeros removed; two PEP 440 release-only
versions are equal iff these agree. -/
def stripZeros (l : List Nat) : List Nat := (l.reverse.dropWhile (fun n => n == 0)).reverse

/-- PEP 440 equality of release-only versions (`Version.__eq__`). -/
def verBEq (a b : List Nat) : Bool := stripZeros a == stripZeros b

/-- Right-pad a release tuple with zeros to length `n`. -/
def padTo (n : Nat) (l : List Nat) : List Nat := l ++ List.replicate (n - l.length) 0

/-- Lexicographic comparison of two equal-length numeric tuples. -/
def lexLe : List Nat → List Nat → Bool
  | [], _ => true
  | _ :: _, [] => false
  | x :: xs, y :: ys => x < y || (x == y && lexLe xs ys)

/-- PEP 440 order of release-only versions (`Version.__le__`): compare the
zero-padded release tuples lexicographically. -/
def verLe (a b : List Nat) : Bool :=
  lexLe (padTo (max a.length b.length) a) (padTo (max a.length b.length) b)

/-- Python `Version(s)` parsing restricted to dotted numeric strings:
every dot-separated component must be a numeral.  `none` models the
`InvalidVersion` exception. -/
def parseVersion (s : String) : Option (List Nat) :=
  let comps := splitOnC '.' s.toList
  if comps.all (fun c => !c.isEmpty && c.all Char.isDigit) then
    some (comps.map (fun c => c.foldl (fun a d => a * 10 + (d.toNat - 48)) 0))
  else none

/-- Python `str(version)` for a release-only version: the components
joined with dots. -/
def versionStr (v : List Nat) : String := String.intercalate "." (v.map toString)

/-! ## Repository handles and the ReleaseData / ReleaseLib dataclasses -/

/-- Embedding of the parts of a `github.Repository` handle that
`release_data.py` reads: `full_name`, `name` and `clone_url`. -/
structure Repository where
  full_name : String := ""
  name : String := ""
  clone_url : String := ""
deriving DecidableEq

/-- Dataclass `ReleaseData` (lines 21-27): message, notes and changes. -/
structure ReleaseData where
  message : String := ""
  notes : String := ""
  changes : List (String × String) := []
deriving DecidableEq

/-- Dataclass `ReleaseLib` (lines 30-42) with its field defaults. -/
structure ReleaseLib where
  name : String := ""
  repo : Option Repository := none
  pr_repo : Option Repository := none
  data : ReleaseData := {}
  commit : String := ""
  rocm_version : String := ""
  lib_version : String := ""
  group : String := ""
  category : String := ""
deriving DecidableEq

/-- Property `ReleaseLib.full_version` (lines 60-67): the version string
itself when it contains more than one dot, otherwise the version string
with `.0` appended. -/
def ReleaseLib.full_version (l : ReleaseLib) : String :=
  if countDots l.rocm_version > 1 then l.rocm_version else l.rocm_version ++ ".0"

/-- Property `ReleaseLib.tag` (lines 50-53). -/
def ReleaseLib.tag (l : ReleaseLib) : String := "rocm-" ++ l.full_version

/-- Property `ReleaseLib.branch` (lines 55-58). -/
def ReleaseLib.branch (l : ReleaseLib) : String := "release/rocm-rel-" ++ l.rocm_version

/-! ## ReleaseLib.do_release (lines 104-131)

The confirmation prompt `get_yn_input` is the boolean `confirmed`; the two
remote calls `repo.create_git_tag_and_release` and `repo.create_git_tag`
are oracles for their outcomes.  The function records the calls it issues
as a trace of `GhAction`s and returns the error, if any, that propagates
to the caller.  The `try`/`except Exception` at lines 112-131 wraps both
calls. -/

/-- Failure modes of the remote host API. -/
inductive GhError
  | alreadyExists
  | apiFailure (msg : String)
deriving DecidableEq

/-- A remote call issued by `do_release`: the combined tag-and-release
call, or the plain alias-tag call. -/
inductive GhAction
  | tagAndRelease (tag message notes commit : String)
  | gitTag (tag message commit : String)
deriving DecidableEq

/-- Embedding of `ReleaseLib.do_release`.  Returns what propagates to the
caller together with the trace of remote calls attempted.  The
`except Exception` clause at line 130 catches every failure of either
remote call and replaces it by the `Already released` message, so the
first component is always `Except.ok`. -/
def ReleaseLib.do_release (l : ReleaseLib) (confirmed : Bool)
    (tagAndReleaseOutcome : Except GhError Unit) (aliasTagOutcome : Except GhError Unit) :
    Except GhError Unit × List GhAction :=
  if confirmed then
    let act1 := GhAction.tagAndRelease l.tag l.data.message l.data.notes l.commit
    match tagAndReleaseOutcome with
    | .error _ => (.ok (), [act1])
    | .ok _ =>
      if l.rocm_version ≠ l.full_version then
        let act2 := GhAction.gitTag ("rocm-" ++ l.rocm_version) l.data.message l.commit
        match aliasTagOutcome with
        | .error _ => (.ok (), [act1, act2])
        | .ok _ => (.ok (), [act1, act2])
      else (.ok (), [act1])
  else (.ok (), [])

/-! ## ReleaseLib.do_create_pull (lines 133-172)

The confirmation prompt is the boolean `confirmed`; the git transport
steps (fetch of the two remotes, branch checkout, push) and the final
`create_pull` host call are oracles for their outcomes.  The observable
state is whether the scratch clone directory `repo_loc` exists on disk
after the call, together with what propagates to the caller.  Lines
142-143 delete a pre-existing directory, `Repo.init` creates it, and the
`shutil.rmtree` at line 157 runs only after the `with` block completes
without raising: it is not in a `finally` block. -/

instance {ε α : Type} [DecidableEq ε] [DecidableEq α] : DecidableEq (Except ε α) :=
  fun a b =>
    match a, b with
    | .error e, .error f =>
      if h : e = f then isTrue (by rw [h]) else isFalse (by simp [h])
    | .error _, .ok _ => isFalse (by simp)
    | .ok _, .error _ => isFalse (by simp)
    | .ok x, .ok y =>
      if h : x = y then isTrue (by rw [h]) else isFalse (by simp [h])

/-- Oracles for one `do_create_pull` run: whether the scratch directory
pre-exists, and the outcomes of the fallible steps in program order. -/
structure PullEnv where
  dirPreExists : Bool := false
  fetchExternal : Except String Unit := .ok ()
  fetchFork : Except String Unit := .ok ()
  checkoutRelease : Except String Unit := .ok ()
  pushFork : Except String Unit := .ok ()
  createPull : Except String String := .ok ""
deriving DecidableEq

/-- Observable outcome of `do_create_pull`: whether the scratch directory
remains on disk, and the value or exception handed to the caller
(`some url` is the created pull request). -/
structure PullOutcome where
  dirRemains : Bool
  result : Except String (Option String)
deriving DecidableEq

/-- Embedding of `ReleaseLib.do_create_pull`. -/
def ReleaseLib.do_create_pull (confirmed : Bool) (env : PullEnv) : PullOutcome :=
  if !confirmed then
    { dirRemains := env.dirPreExists, result := .ok none }
  else
    -- lines 142-145: rmtree of a pre-existing directory, then Repo.init
    -- creates the scratch directory, so it exists from here on.
    match env.fetchExternal with
    | .error e => { dirRemains := true, result := .error e }
    | .ok _ =>
      match env.fetchFork with
      | .error e => { dirRemains := true, result := .error e }
      | .ok _ =>
        match env.checkoutRelease with
        | .error e => { dirRemains := true, result := .error e }
        | .ok _ =>
          match env.pushFork with
          | .error e => { dirRemains := true, result := .error e }
          | .ok _ =>
            -- line 157: rmtree after the with-block, directory is gone.
            match env.createPull with
            | .error e => { dirRemains := false, result := .error e }
            | .ok url => { dirRemains := false, result := .ok (some url) }

/-! ## The ReleaseBundle dataclass (lines 236-241)

The `libraries` field is annotated `Dict[str, ReleaseLib]` but its
declared default factory is the `ReleaseLib` constructor itself, so a
default-constructed bundle holds a `ReleaseLib` object where a dict is
expected.  The dynamic value is embedded as a sum.  Likewise the `version`
field is annotated `str` with default `""`, while
`create_release_bundle_data` (line 423) actually stores a `Version`. -/

/-- Dynamic value of the `ReleaseBundle.version` field. -/
inductive BundleVersionField
  | str (s : String)
  | ver (v : List Nat)
deriving DecidableEq

/-- Dynamic value of the `ReleaseBundle.libraries` field. -/
inductive BundleLibrariesField
  | dict (entries : List (String × ReleaseLib))
  | lib (l : ReleaseLib)
deriving DecidableEq

/-- Dataclass `ReleaseBundle`. -/
structure ReleaseBundle where
  version : BundleVersionField
  libraries : BundleLibrariesField
deriving DecidableEq

/-- A `ReleaseBundle()` built with no arguments: `version` defaults to
`""` and `libraries` to the result of calling its default factory, which
is the `ReleaseLib` constructor. -/
def ReleaseBundle.defaultConstructed : ReleaseBundle :=
  { version := .str "", libraries := .lib {} }

/-! ## ReleaseBundleFactory.fetch_tags (lines 349-364)

The transport `Git().ls_remote("--tags", url)` is replaced by its output
string (the listing), one `sha TAB ref` line per tag.  The regular
expression `rocm-(\d+(\.\d+)+)` is implemented directly: `re.search`
returns the match at the leftmost position where the whole pattern
matches; the captured group is a dotted numeric sequence of at least two
components, represented here by its numeric component list (the later
`Version(...)` constructor normalizes away leading-zero spellings, so the
component list is a lossless representation of every observable). -/

/-- Leading decimal digits of a character list and the remainder. -/
def spanDigits (l : List Char) : List Char × List Char :=
  (l.takeWhile Char.isDigit, l.dropWhile Char.isDigit)

/-- Numeric value of a digit run. -/
def digitsToNat (ds : List Char) : Nat :=
  ds.foldl (fun a d => a * 10 + (d.toNat - 48)) 0

/-- Greedy match of `(\.\d+)*` at the front of a character list,
returning the numeric components consumed.  The fuel argument bounds the
recursion by the input length; each step consumes at least two
characters. -/
def dotGroups : Nat → List Char → List Nat
  | 0, _ => []
  | fuel + 1, l =>
    match l with
    | '.' :: cs =>
      match spanDigits cs with
      | ([], _) => []
      | (ds, rest) => digitsToNat ds :: dotGroups fuel rest
    | _ => []

/-- Greedy match of `\d+(\.\d+)+` at the front of a character list:
at least one digit run followed by at least one `.digits` group. -/
def rocmVerAt (l : List Char) : Option (List Nat) :=
  let ds := l.takeWhile Char.isDigit
  let rest := l.dropWhile Char.isDigit
  if ds.isEmpty then none
  else
    let gs := dotGroups rest.length rest
    if gs.isEmpty then none
    else some (digitsToNat ds :: gs)

/-- Remainder of a character list after a leading literal `rocm-`,
if present. -/
def stripRocm : List Char → Option (List Char)
  | 'r' :: 'o' :: 'c' :: 'm' :: '-' :: rest => some rest
  | _ => none

/-- Embedding of `re.search(r"rocm-(\d+(\.\d+)+)", tag)`: scan for the
leftmost position at which the literal `rocm-` is followed by a full
`\d+(\.\d+)+` match, and return the captured components. -/
def rocmSearch : List Char → Option (List Nat)
  | [] => none
  | c :: cs =>
    match stripRocm (c :: cs) with
    | some rest =>
      match rocmVerAt rest with
      | some v => some v
      | none => rocmSearch cs
    | none => rocmSearch cs

/-- The one exception `fetch_tags` can raise: `column[1]` on a line
without a tab (an `IndexError`). -/
inductive TagsErr
  | indexError
deriving DecidableEq

/-- Loop body of `fetch_tags` over the remaining listing lines, with the
accumulated result dict.  `column[0]` never fails because `split` always
returns at least one element; `column[1]` raises `IndexError` on a line
with no tab.  A matched version string `v` is padded by
`".0" * (2 - v.count("."))` (with Python negative repetition yielding the
empty string, as does truncated subtraction here) and inserted under
PEP 440 key equality. -/
def fetchTagsGo : List (List Nat × String) → List (List Char) →
    Except TagsErr (List (List Nat × String))
  | m, [] => .ok m
  | m, line :: rest =>
    let column := splitOnC '\t' line
    let sha := (column.getD 0 []).asString
    match column.get? 1 with
    | none => .error .indexError
    | some tagRef =>
      match rocmSearch tagRef with
      | none => fetchTagsGo m rest
      | some ver =>
        let ver := ver ++ List.replicate (2 - (ver.length - 1)) 0
        fetchTagsGo (pyInsert verBEq m ver sha) rest

/-- Embedding of `ReleaseBundleFactory.fetch_tags`, as a function of the
transport output for the given URL. -/
def fetchTags (listing : String) : Except TagsErr (List (List Nat × String)) :=
  fetchTagsGo [] (splitOnC '\n' listing.toList)

/-! ## ReleaseBundleFactory.create_release_bundle_data (lines 366-428)

The factory state consulted by the loop is embedded as a pure
environment: `get_repos` (memoized per name, lines 312-326) is a total
map to a repository pair, `get_tag` (lines 337-347) is a lookup in the
per-component tag index `self.tags[name]` (memoized result of
`fetch_tags`, embedded as the map `tagIndex`), `repo.get_branch` on the
configured branch is `branchTip` (with `none` standing for the exception
caught at line 396), and the external `group_mapping`/`category_mapping`
tables from `util.mappings` are total string maps. -/

/-- One entry of the `component_info` list: `(name, remote, group,
category)`. -/
structure Component where
  name : String := ""
  remote : String := ""
  group : String := ""
  category : String := ""
deriving DecidableEq

/-- Pure embedding of the factory state read by the bundle builder. -/
structure FactoryEnv where
  repos : String → Repository × Repository
  tagIndex : String → List (List Nat × String)
  branchTip : String → Option String
  branch : String
  groupMapping : String → String
  categoryMapping : String → String

/-- Embedding of `ReleaseBundleFactory.get_tag` given the (memoized) tag
index: `None` when the version is not a key of the component's index. -/
def getTag (env : FactoryEnv) (name : String) (version : List Nat) : Option String :=
  pyLookup verBEq (env.tagIndex name) version

/-- Outcome of the commit-resolution step (lines 385-399) for one
component. -/
inductive CommitRes
  | use (commit : String)
  | skip
  | missingBranch
deriving DecidableEq

/-- Lines 385-399: look the version up in the tag index; on a falsy
result (`None` or the empty string), either skip (not `is_untagged`) or
fall back to the tip of the configured release branch, recording a
missing branch when that lookup raises. -/
def resolveCommit (env : FactoryEnv) (version : List Nat) (is_untagged : Bool)
    (c : Component) : CommitRes :=
  let commit := getTag env c.name version
  if (commit.getD "") = "" then
    if !is_untagged then .skip
    else
      match env.branchTip c.name with
      | some sha => .use sha
      | none => .missingBranch
  else .use (commit.getD "")

/-- Mutable state of the bundle-construction loop: the `libraries` dict,
the `missing_branches` list, and the previous group/category labels
(`None` before the first included component). -/
structure BuildState where
  libs : List (String × ReleaseLib) := []
  missing : List String := []
  prev_group : Option String := none
  prev_category : Option String := none

/-- The `ReleaseLib` constructed at lines 411-419 for an included
component. -/
def mkBundleLib (env : FactoryEnv) (version : List Nat) (c : Component)
    (commit displayGroup displayCategory : String) : ReleaseLib :=
  { name := c.name
    repo := some (env.repos c.name).1
    pr_repo := some (env.repos c.name).2
    commit := commit
    rocm_version := versionStr version
    group := env.groupMapping displayGroup
    category := env.categoryMapping displayCategory }

/-- One iteration of the loop at lines 382-421. -/
def bundleStep (env : FactoryEnv) (version : List Nat) (is_untagged : Bool)
    (st : BuildState) (c : Component) : BuildState :=
  match resolveCommit env version is_untagged c with
  | .skip => st
  | .missingBranch => { st with missing := st.missing ++ [env.branch ++ " for " ++ c.name] }
  | .use commit =>
    let displayGroup := if st.prev_group = some c.group then "" else c.group
    let pg := if st.prev_group = some c.group then st.prev_group else some c.group
    let displayCategory := if st.prev_category = some c.category then "" else c.category
    let pc := if st.prev_category = some c.category then st.prev_category else some c.category
    { st with
      libs := pyInsert (fun a b => a == b) st.libs c.name
        (mkBundleLib env version c commit displayGroup displayCategory)
      prev_group := pg
      prev_category := pc }

/-- The loop at lines 382-421 over the remaining components. -/
def bundleLoop (env : FactoryEnv) (version : List Nat) (is_untagged : Bool) :
    BuildState → List Component → BuildState
  | st, [] => st
  | st, c :: cs => bundleLoop env version is_untagged (bundleStep env version is_untagged st c) cs

/-- Embedding of `ReleaseBundleFactory.create_release_bundle_data`.
Returns the constructed `ReleaseBundle` (line 423 stores the `Version`
value in the `str`-annotated field and the dict in `libraries`) together
with the `missing_branches` list printed at lines 425-427. -/
def create_release_bundle_data (env : FactoryEnv) (version : List Nat)
    (component_info : List Component) (is_untagged : Bool) :
    ReleaseBundle × List String :=
  let st := bundleLoop env version is_untagged {} component_info
  ({ version := .ver version, libraries := .dict st.libs }, st.missing)

/-! ## ReleaseBundleFactory.create_data_dict (lines 430-456)

`rocmListing` is the transport output for the umbrella product
repository's tag listing.  The containment test
`up_to_version not in versions` at line 443 compares the *string*
`up_to_version` against `Version` objects; `packaging`'s
`Version.__eq__` returns `NotImplemented` for a string operand and the
reflected comparison does too, so the test is `False` for every element
and `max_version` is always appended.  `versions.sort()` is Python's
stable ascending sort, embedded as insertion sort under `verLe`. -/

/-- The PEP 440 order as a decidable relation for `List.insertionSort`. -/
def verLeP (a b : List Nat) : Prop := verLe a b = true

instance : DecidableRel verLeP := fun a b => by
  unfold verLeP; infer_instance

/-- The sorted version worklist of `create_data_dict` (lines 441-445):
the keys of the product tag index, with `max_version` appended
unconditionally (line 443: the str-vs-Version containment test is always
false), sorted ascending by the stable `list.sort`. -/
def dataDictVersions (rocm_tags : List (List Nat × String)) (max_version : List Nat) :
    List (List Nat) :=
  ((rocm_tags.map (fun p => p.1)) ++ [max_version]).insertionSort verLeP

/-- Embedding of `ReleaseBundleFactory.create_data_dict`.  `none` models
the `InvalidVersion` exception raised when `up_to_version` or
`min_version` does not parse; the `Except` propagates a `fetch_tags`
failure on the product repository listing. -/
def create_data_dict (env : FactoryEnv) (rocmListing : String)
    (up_to_version : String) (component_information : List Component)
    (min_version : String) :
    Option (Except TagsErr (List (String × ReleaseBundle))) :=
  match parseVersion up_to_version, parseVersion min_version with
  | some max_version, some minV =>
    some (do
      let rocm_tags ← fetchTags rocmListing
      let data := (dataDictVersions rocm_tags max_version).foldl (fun data version =>
        if verLe minV version && verLe version max_version then
          pyInsert (fun a b => a == b) data (versionStr version)
            (create_release_bundle_data env version component_information
              (verBEq version max_version)).1
        else data) []
      pure data)
  | _, _ => none

/-! ## Derived projections and closed forms used by the statements -/

/-- The association list stored in the `libraries` field of a bundle
built by `create_release_bundle_data` (empty for the degenerate
default-constructed field value). -/
def ReleaseBundle.entries (b : ReleaseBundle) : List (String × ReleaseLib) :=
  match b.libraries with
  | .dict es => es
  | .lib _ => []

/-- Whether the loop includes a component in the bundle (its commit
resolves via tag or branch fallback). -/
def isIncluded (env : FactoryEnv) (version : List Nat) (is_untagged : Bool)
    (c : Component) : Bool :=
  match resolveCommit env version is_untagged c with
  | .use _ => true
  | _ => false

/-- Repeated Python dict assignment, left to right. -/
def pyInsertAll {κ ν : Type} (eqk : κ → κ → Bool) (acc : List (κ × ν))
    (entries : List (κ × ν)) : List (κ × ν) :=
  entries.foldl (fun m p => pyInsert eqk m p.1 p.2) acc

/-- Closed form of the `libraries` entries produced by the loop from a
given previous-group/previous-category state: one entry per included
component, in order, with the display labels derived from the threaded
state. -/
def includedEntries (env : FactoryEnv) (version : List Nat) (is_untagged : Bool) :
    Option String → Option String → List Component → List (String × ReleaseLib)
  | _, _, [] => []
  | pg, pc, c :: cs =>
    match resolveCommit env version is_untagged c with
    | .use commit =>
      let displayGroup := if pg = some c.group then "" else c.group
      let pg₂ := if pg = some c.group then pg else some c.group
      let displayCategory := if pc = some c.category then "" else c.category
      let pc₂ := if pc = some c.category then pc else some c.category
      (c.name, mkBundleLib env version c commit displayGroup displayCategory) ::
        includedEntries env version is_untagged pg₂ pc₂ cs
    | _ => includedEntries env version is_untagged pg pc cs

/-- The advisory string recorded for a component whose fallback branch is
missing (line 398). -/
def missingEntryStr (env : FactoryEnv) (c : Component) : String :=
  env.branch ++ " for " ++ c.name

/-- Closed form of the `missing_branches` list: one advisory string per
component whose tag is absent and whose fallback branch lookup fails, in
order. -/
def missingList (env : FactoryEnv) (version : List Nat) (is_untagged : Bool)
    (comps : List Component) : List String :=
  comps.filterMap (fun c =>
    match resolveCommit env version is_untagged c with
    | .missingBranch => some (missingEntryStr env c)
    | _ => none)

/-- Run-length suppression of a label sequence, as §4.4 step 6 of the
specification describes it: a label equal to the immediately preceding
included label displays as the empty string and does not update the
previous value; otherwise it displays as its mapped text and becomes the
new previous value. -/
def rlSuppress (labelMap : String → String) : Option String → List String → List String
  | _, [] => []
  | prev, k :: ks =>
    if prev = some k then "" :: rlSuppress labelMap prev ks
    else labelMap k :: rlSuppress labelMap (some k) ks

/-! ## Lemmas about the Python dict embedding -/

lemma verBEq_refl (a : List Nat) : verBEq a a = true := by
  simp [verBEq]

lemma verBEq_symm {a b : List Nat} (h : verBEq a b = true) : verBEq b a = true := by
  simp only [verBEq, beq_iff_eq] at h ⊢
  exact h.symm

lemma verBEq_trans {a b c : List Nat} (hab : verBEq a b = true) (hbc : verBEq b c = true) :
    verBEq a c = true := by
  simp only [verBEq, beq_iff_eq] at hab hbc ⊢
  exact hab.trans hbc

lemma mem_pyInsert {κ ν : Type} (eqk : κ → κ → Bool) {m : List (κ × ν)} {k : κ} {v : ν}
    {x : κ × ν} (hx : x ∈ pyInsert eqk m k v) :
    (∃ p ∈ m, x.1 = p.1) ∨ x = (k, v) := by
  unfold pyInsert at hx
  split at hx
  · rcases List.mem_map.mp hx with ⟨p, hp, hpx⟩
    left
    refine ⟨p, hp, ?_⟩
    by_cases hk : eqk p.1 k = true <;> simp [hk] at hpx <;> simp [← hpx]
  · rcases List.mem_append.mp hx with h | h
    · exact Or.inl ⟨x, h, rfl⟩
    · simp at h
      exact Or.inr h

lemma mem_pyInsert_beq {κ ν : Type} [BEq κ] [LawfulBEq κ] {m : List (κ × ν)} {k : κ} {v : ν}
    {x : κ × ν} (hx : x ∈ pyInsert (fun a b => a == b) m k v) :
    x ∈ m ∨ x = (k, v) := by
  unfold pyInsert at hx
  split at hx
  · rcases List.mem_map.mp hx with ⟨p, hp, hpx⟩
    by_cases hk : p.1 == k
    · simp [hk] at hpx
      right
      rw [← hpx, eq_of_beq hk]
    · simp [hk] at hpx
      exact Or.inl (hpx ▸ hp)
  · rcases List.mem_append.mp hx with h | h
    · exact Or.inl h
    · simp at h
      exact Or.inr h

lemma pyLookup_map_replace {m : List (List Nat × String)} {k v : List Nat} {sha : String}
    (hany : m.any (fun p => verBEq p.1 k) = true) (h : verBEq k v = true) :
    pyLookup verBEq (m.map (fun p => if verBEq p.1 k then (p.1, sha) else p)) v = some sha := by
  induction m with
  | nil => simp at hany
  | cons p m ih =>
    by_cases hpk : verBEq p.1 k = true
    · have hpv : verBEq p.1 v = true := verBEq_trans hpk h
      simp [pyLookup, List.find?, hpk, hpv]
    · have hpv : verBEq p.1 v = false := by
        by_contra hc
        exact hpk (verBEq_trans (Bool.of_not_eq_false hc) (verBEq_symm h))
      have hany₂ : m.any (fun p => verBEq p.1 k) = true := by
        simp only [List.any_cons, hpk, Bool.false_or] at hany
        exact hany
      simpa [pyLookup, List.find?, hpk, hpv] using ih hany₂

lemma pyLookup_append_fresh {m : List (List Nat × String)} {k v : List Nat} {sha : String}
    (hany : m.any (fun p => verBEq p.1 k) = false) (h : verBEq k v = true) :
    pyLookup verBEq (m ++ [(k, sha)]) v = some sha := by
  induction m with
  | nil => simp [pyLookup, List.find?, h]
  | cons p m ih =>
    simp only [List.any_cons, Bool.or_eq_false_iff] at hany
    have hpv : verBEq p.1 v = false := by
      by_contra hc
      have hpk : verBEq p.1 k = true :=
        verBEq_trans (Bool.of_not_eq_false hc) (verBEq_symm h)
      rw [hpk] at hany
      simp at hany
    simpa [pyLookup, List.find?, hpv] using ih hany.2

lemma pyLookup_pyInsert_verBEq (m : List (List Nat × String)) (k v : List Nat) (sha : String)
    (h : verBEq k v = true) :
    pyLookup verBEq (pyInsert verBEq m k sha) v = some sha := by
  unfold pyInsert
  by_cases hany : m.any (fun p => verBEq p.1 k) = true
  · simpa [hany] using pyLookup_map_replace hany h
  · have hf : m.any (fun p => verBEq p.1 k) = false := Bool.of_not_eq_true hany
    simpa [hf] using pyLookup_append_fresh hf h

lemma pyInsertAll_eq_append {ν : Type} (entries : List (String × ν)) :
    ∀ acc : List (String × ν),
      (∀ p ∈ entries, ∀ q ∈ acc, q.1 ≠ p.1) →
      (entries.map Prod.fst).Nodup →
      pyInsertAll (fun a b => a == b) acc entries = acc ++ entries := by
  induction entries with
  | nil => intro acc _ _; simp [pyInsertAll]
  | cons e es ih =>
    intro acc hfresh hnd
    have hany : acc.any (fun q => q.1 == e.1) = false := by
      rw [Bool.eq_false_iff]
      intro hc
      rcases List.any_eq_true.mp hc with ⟨q, hq, hqe⟩
      exact hfresh e (by simp) q hq (by simpa using hqe)
    have hstep : pyInsert (fun a b => a == b) acc e.1 e.2 = acc ++ [e] := by
      simp [pyInsert, hany]
    have hnd₂ : (es.map Prod.fst).Nodup := (List.nodup_cons.mp (by simpa using hnd)).2
    have hfresh₂ : ∀ p ∈ es, ∀ q ∈ acc ++ [e], q.1 ≠ p.1 := by
      intro p hp q hq
      rcases List.mem_append.mp hq with hq | hq
      · exact hfresh p (List.mem_cons_of_mem _ hp) q hq
      · simp at hq
        have hne : e.1 ∉ es.map Prod.fst := (List.nodup_cons.mp (by simpa using hnd)).1
        rw [hq]
        intro hc
        exact hne (hc ▸ List.mem_map_of_mem Prod.fst hp)
    calc pyInsertAll (fun a b => a == b) acc (e :: es)
        = pyInsertAll (fun a b => a == b) (acc ++ [e]) es := by
          simp [pyInsertAll, hstep]
      _ = (acc ++ [e]) ++ es := ih (acc ++ [e]) hfresh₂ hnd₂
      _ = acc ++ e :: es := by simp

/-! ## Characterization of the bundle-construction loop -/

lemma isIncluded_of_use {env : FactoryEnv} {version : List Nat} {is_untagged : Bool}
    {c : Component} {t : String} (hr : resolveCommit env version is_untagged c = .use t) :
    isIncluded env version is_untagged c = true := by
  simp [isIncluded, hr]

lemma isIncluded_of_skip {env : FactoryEnv} {version : List Nat} {is_untagged : Bool}
    {c : Component} (hr : resolveCommit env version is_untagged c = .skip) :
    isIncluded env version is_untagged c = false := by
  simp [isIncluded, hr]

lemma isIncluded_of_missingBranch {env : FactoryEnv} {version : List Nat} {is_untagged : Bool}
    {c : Component} (hr : resolveCommit env version is_untagged c = .missingBranch) :
    isIncluded env version is_untagged c = false := by
  simp [isIncluded, hr]

lemma bundleLoop_missing (env : FactoryEnv) (version : List Nat) (is_untagged : Bool) :
    ∀ (comps : List Component) (st : BuildState),
      (bundleLoop env version is_untagged st comps).missing
        = st.missing ++ missingList env version is_untagged comps := by
  intro comps
  induction comps with
  | nil => intro st; simp [bundleLoop, missingList]
  | cons c cs ih =>
    intro st
    rw [bundleLoop, ih]
    cases hr : resolveCommit env version is_untagged c <;>
      simp [bundleStep, missingList, missingEntryStr, hr]

lemma bundleLoop_libs (env : FactoryEnv) (version : List Nat) (is_untagged : Bool) :
    ∀ (comps : List Component) (st : BuildState),
      (bundleLoop env version is_untagged st comps).libs
        = pyInsertAll (fun a b => a == b) st.libs
            (includedEntries env version is_untagged st.prev_group st.prev_category comps) := by
  intro comps
  induction comps with
  | nil => intro st; simp [bundleLoop, includedEntries, pyInsertAll]
  | cons c cs ih =>
    intro st
    rw [bundleLoop, ih]
    cases hr : resolveCommit env version is_untagged c <;>
      simp [bundleStep, includedEntries, pyInsertAll, hr]

lemma includedEntries_keys (env : FactoryEnv) (version : List Nat) (is_untagged : Bool) :
    ∀ (comps : List Component) (pg pc : Option String),
      (includedEntries env version is_untagged pg pc comps).map Prod.fst
        = (comps.filter (isIncluded env version is_untagged)).map (fun c => c.name) := by
  intro comps
  induction comps with
  | nil => intro pg pc; simp [includedEntries]
  | cons c cs ih =>
    intro pg pc
    cases hr : resolveCommit env version is_untagged c
    case use commit =>
      simp [includedEntries, hr, List.filter_cons, isIncluded_of_use hr, ih]
    case skip =>
      simp [includedEntries, hr, List.filter_cons, isIncluded_of_skip hr, ih]
    case missingBranch =>
      simp [includedEntries, hr, List.filter_cons, isIncluded_of_missingBranch hr, ih]

lemma includedEntries_groups (env : FactoryEnv) (version : List Nat) (is_untagged : Bool)
    (hgm : env.groupMapping "" = "") :
    ∀ (comps : List Component) (pg pc : Option String),
      (includedEntries env version is_untagged pg pc comps).map (fun e => e.2.group)
        = rlSuppress env.groupMapping pg
            ((comps.filter (isIncluded env version is_untagged)).map (fun c => c.group)) := by
  intro comps
  induction comps with
  | nil => intro pg pc; simp [includedEntries, rlSuppress]
  | cons c cs ih =>
    intro pg pc
    cases hr : resolveCommit env version is_untagged c
    case use commit =>
      by_cases hpg : pg = some c.group <;>
        simp [includedEntries, hr, List.filter_cons, isIncluded_of_use hr,
          rlSuppress, hpg, mkBundleLib, hgm, ih]
    case skip =>
      simp [includedEntries, hr, List.filter_cons, isIncluded_of_skip hr, ih]
    case missingBranch =>
      simp [includedEntries, hr, List.filter_cons, isIncluded_of_missingBranch hr, ih]

lemma includedEntries_categories (env : FactoryEnv) (version : List Nat) (is_untagged : Bool)
    (hcm : env.categoryMapping "" = "") :
    ∀ (comps : List Component) (pg pc : Option String),
      (includedEntries env version is_untagged pg pc comps).map (fun e => e.2.category)
        = rlSuppress env.categoryMapping pc
            ((comps.filter (isIncluded env version is_untagged)).map (fun c => c.category)) := by
  intro comps
  induction comps with
  | nil => intro pg pc; simp [includedEntries, rlSuppress]
  | cons c cs ih =>
    intro pg pc
    cases hr : resolveCommit env version is_untagged c
    case use commit =>
      by_cases hpc : pc = some c.category <;>
        simp [includedEntries, hr, List.filter_cons, isIncluded_of_use hr,
          rlSuppress, hpc, mkBundleLib, hcm, ih]
    case skip =>
      simp [includedEntries, hr, List.filter_cons, isIncluded_of_skip hr, ih]
    case missingBranch =>
      simp [includedEntries, hr, List.filter_cons, isIncluded_of_missingBranch hr, ih]

lemma missingEntryStr_name_inj {env : FactoryEnv} {c d : Component}
    (h : missingEntryStr env c = missingEntryStr env d) : c.name = d.name := by
  unfold missingEntryStr at h
  have hdata := congrArg String.data h
  simp only [String.data_append] at hdata
  exact String.ext (List.append_cancel_left hdata)

lemma nodup_name_cons {d : Component} {ds : List Component}
    (hnd : ((d :: ds).map (fun x => x.name)).Nodup) :
    d.name ∉ ds.map (fun x => x.name) ∧ (ds.map (fun x => x.name)).Nodup := by
  rw [List.map_cons, List.nodup_cons] at hnd
  exact hnd

lemma not_mem_missingList_of_name_not_mem (env : FactoryEnv) (version : List Nat)
    (is_untagged : Bool) {c : Component} :
    ∀ comps : List Component, c.name ∉ comps.map (fun d => d.name) →
      missingEntryStr env c ∉ missingList env version is_untagged comps := by
  intro comps
  induction comps with
  | nil => intro _; simp [missingList]
  | cons d ds ih =>
    intro hn
    simp only [List.map_cons, List.mem_cons, not_or] at hn
    cases hr : resolveCommit env version is_untagged d
    case use commit => simpa [missingList, hr] using ih hn.2
    case skip => simpa [missingList, hr] using ih hn.2
    case missingBranch =>
      simp only [missingList, List.filterMap_cons, hr]
      intro hmem
      rcases List.mem_cons.mp hmem with heq | hmem₂
      · exact hn.1 (missingEntryStr_name_inj heq)
      · exact ih hn.2 hmem₂

lemma count_missingList_of_missing (env : FactoryEnv) (version : List Nat)
    (is_untagged : Bool) {c : Component} :
    ∀ comps : List Component, (comps.map (fun d => d.name)).Nodup → c ∈ comps →
      resolveCommit env version is_untagged c = .missingBranch →
      (missingList env version is_untagged comps).count (missingEntryStr env c) = 1 := by
  intro comps
  induction comps with
  | nil => intro _ hmem; simp at hmem
  | cons d ds ih =>
    intro hnd hmem hr
    have hnd₂ := nodup_name_cons hnd
    rcases List.mem_cons.mp hmem with rfl | hmem₂
    · have hnotin : missingEntryStr env c ∉ missingList env version is_untagged ds :=
        not_mem_missingList_of_name_not_mem env version is_untagged ds hnd₂.1
      have hzero := List.count_eq_zero.mpr hnotin
      simp only [missingList] at hzero ⊢
      simp [List.filterMap_cons, hr, List.count_cons, hzero]
    · have hne : missingEntryStr env c ≠ missingEntryStr env d := by
        intro heq
        exact hnd₂.1 ((missingEntryStr_name_inj heq) ▸
          List.mem_map_of_mem (fun x => x.name) hmem₂)
      have hih := ih hnd₂.2 hmem₂ hr
      simp only [missingList] at hih ⊢
      cases hd : resolveCommit env version is_untagged d <;>
        simp [List.filterMap_cons, hd, List.count_cons, hne, Ne.symm hne, hih]

lemma not_mem_missingList_of_not_missing (env : FactoryEnv) (version : List Nat)
    (is_untagged : Bool) {c : Component} :
    ∀ comps : List Component, (comps.map (fun d => d.name)).Nodup → c ∈ comps →
      resolveCommit env version is_untagged c ≠ .missingBranch →
      missingEntryStr env c ∉ missingList env version is_untagged comps := by
  intro comps
  induction comps with
  | nil => intro _ hmem; simp at hmem
  | cons d ds ih =>
    intro hnd hmem hr
    have hnd₂ := nodup_name_cons hnd
    rcases List.mem_cons.mp hmem with rfl | hmem₂
    · have hnotin : missingEntryStr env c ∉ missingList env version is_untagged ds :=
        not_mem_missingList_of_name_not_mem env version is_untagged ds hnd₂.1
      cases hd : resolveCommit env version is_untagged c
      case missingBranch => exact absurd hd hr
      all_goals simpa [missingList, List.filterMap_cons, hd] using hnotin
    · have hne : missingEntryStr env c ≠ missingEntryStr env d := by
        intro heq
        exact hnd₂.1 ((missingEntryStr_name_inj heq) ▸
          List.mem_map_of_mem (fun x => x.name) hmem₂)
      have hih := ih hnd₂.2 hmem₂ hr
      simp only [missingList] at hih ⊢
      cases hd : resolveCommit env version is_untagged d <;>
        simp [List.filterMap_cons, hd, hne, hih]

lemma pyLookup_includedEntries_of_name_not_mem (env : FactoryEnv) (version : List Nat)
    (is_untagged : Bool) {n : String} :
    ∀ (comps : List Component) (pg pc : Option String), n ∉ comps.map (fun d => d.name) →
      pyLookup (fun a b => a == b) (includedEntries env version is_untagged pg pc comps) n
        = none := by
  intro comps
  induction comps with
  | nil => intro pg pc _; simp [includedEntries, pyLookup]
  | cons d ds ih =>
    intro pg pc hn
    simp only [List.map_cons, List.mem_cons, not_or] at hn
    cases hr : resolveCommit env version is_untagged d
    case use commit =>
      have hne : (d.name == n) = false := by
        simp only [beq_eq_false_iff_ne, ne_eq]
        exact fun heq => hn.1 heq.symm
      have hih := ih (if pg = some d.group then pg else some d.group)
        (if pc = some d.category then pc else some d.category) hn.2
      simpa [includedEntries, hr, pyLookup, List.find?, hne] using hih
    case skip => simpa [includedEntries, hr] using ih pg pc hn.2
    case missingBranch => simpa [includedEntries, hr] using ih pg pc hn.2

lemma pyLookup_includedEntries_of_use (env : FactoryEnv) (version : List Nat)
    (is_untagged : Bool) {c : Component} {t : String} :
    ∀ (comps : List Component) (pg pc : Option String),
      (comps.map (fun d => d.name)).Nodup → c ∈ comps →
      resolveCommit env version is_untagged c = .use t →
      ∃ lib : ReleaseLib,
        pyLookup (fun a b => a == b) (includedEntries env version is_untagged pg pc comps)
          c.name = some lib ∧ lib.commit = t := by
  intro comps
  induction comps with
  | nil => intro pg pc _ hmem; simp at hmem
  | cons d ds ih =>
    intro pg pc hnd hmem hr
    have hnd₂ := nodup_name_cons hnd
    rcases List.mem_cons.mp hmem with rfl | hmem₂
    · refine ⟨mkBundleLib env version c t (if pg = some c.group then "" else c.group)
        (if pc = some c.category then "" else c.category), ?_, rfl⟩
      simp [includedEntries, hr, pyLookup, List.find?]
    · have hne : (d.name == c.name) = false := by
        simp only [beq_eq_false_iff_ne, ne_eq]
        intro heq
        exact hnd₂.1 (heq ▸ List.mem_map_of_mem (fun x => x.name) hmem₂)
      cases hd : resolveCommit env version is_untagged d
      case use commit =>
        rcases ih (if pg = some d.group then pg else some d.group)
          (if pc = some d.category then pc else some d.category) hnd₂.2 hmem₂ hr with
          ⟨lib, hlook, hcommit⟩
        refine ⟨lib, ?_, hcommit⟩
        simpa [includedEntries, hd, pyLookup, List.find?, hne] using hlook
      case skip =>
        simpa [includedEntries, hd] using ih pg pc hnd₂.2 hmem₂ hr
      case missingBranch =>
        simpa [includedEntries, hd] using ih pg pc hnd₂.2 hmem₂ hr

lemma pyLookup_includedEntries_of_not_use (env : FactoryEnv) (version : List Nat)
    (is_untagged : Bool) {c : Component} :
    ∀ (comps : List Component) (pg pc : Option String),
      (comps.map (fun d => d.name)).Nodup → c ∈ comps →
      (∀ t, resolveCommit env version is_untagged c ≠ .use t) →
      pyLookup (fun a b => a == b) (includedEntries env version is_untagged pg pc comps)
        c.name = none := by
  intro comps
  induction comps with
  | nil => intro pg pc _ hmem; simp at hmem
  | cons d ds ih =>
    intro pg pc hnd hmem hr
    have hnd₂ := nodup_name_cons hnd
    rcases List.mem_cons.mp hmem with rfl | hmem₂
    · cases hd : resolveCommit env version is_untagged c
      case use commit => exact absurd hd (hr _)
      all_goals
        simpa [includedEntries, hd] using
          pyLookup_includedEntries_of_name_not_mem env version is_untagged ds pg pc hnd₂.1
    · have hne : (d.name == c.name) = false := by
        simp only [beq_eq_false_iff_ne, ne_eq]
        intro heq
        exact hnd₂.1 (heq ▸ List.mem_map_of_mem (fun x => x.name) hmem₂)
      cases hd : resolveCommit env version is_untagged d
      case use commit =>
        have := ih (if pg = some d.group then pg else some d.group)
          (if pc = some d.category then pc else some d.category) hnd₂.2 hmem₂ hr
        simpa [includedEntries, hd, pyLookup, List.find?, hne] using this
      case skip =>
        simpa [includedEntries, hd] using ih pg pc hnd₂.2 hmem₂ hr
      case missingBranch =>
        simpa [includedEntries, hd] using ih pg pc hnd₂.2 hmem₂ hr

/-! ## Lemmas about fetch_tags -/

lemma rocmVerAt_two_le {l : List Char} {v : List Nat} (h : rocmVerAt l = some v) :
    2 ≤ v.length := by
  unfold rocmVerAt at h
  by_cases hds : (l.takeWhile Char.isDigit).isEmpty
  · simp [hds] at h
  · by_cases hgs : (dotGroups (l.dropWhile Char.isDigit).length (l.dropWhile Char.isDigit)).isEmpty
    · simp [hds, hgs] at h
    · simp only [hds, hgs, if_false, Bool.false_eq_true, Option.some.injEq] at h
      rw [← h]
      have : (dotGroups (l.dropWhile Char.isDigit).length (l.dropWhile Char.isDigit)).length ≠ 0 := by
        intro hc
        exact hgs (List.isEmpty_iff_length_eq_zero.mpr hc)
      simp only [List.length_cons]
      omega

lemma rocmSearch_two_le {v : List Nat} : ∀ {l : List Char}, rocmSearch l = some v →
    2 ≤ v.length := by
  intro l
  induction l with
  | nil => intro h; simp [rocmSearch] at h
  | cons c cs ih =>
    intro h
    rw [rocmSearch] at h
    rcases hs : stripRocm (c :: cs) with _ | rest
    · simp only [hs] at h
      exact ih h
    · simp only [hs] at h
      rcases hv : rocmVerAt rest with _ | w
      · simp only [hv] at h
        exact ih h
      · simp only [hv, Option.some.injEq] at h
        exact h ▸ rocmVerAt_two_le hv

lemma fetchTagsGo_ok_keys :
    ∀ {lines : List (List Char)} {m m₂ : List (List Nat × String)},
      (∀ kv ∈ m, 3 ≤ kv.1.length) → fetchTagsGo m lines = .ok m₂ →
      ∀ kv ∈ m₂, 3 ≤ kv.1.length := by
  intro lines
  induction lines with
  | nil =>
    intro m m₂ hm hok
    simp only [fetchTagsGo, Except.ok.injEq] at hok
    exact hok ▸ hm
  | cons line rest ih =>
    intro m m₂ hm hok
    rw [fetchTagsGo] at hok
    rcases hcol : (splitOnC '\t' line).get? 1 with _ | tagRef
    · simp only [hcol] at hok
      simp at hok
    · simp only [hcol] at hok
      rcases hsearch : rocmSearch tagRef with _ | ver
      · simp only [hsearch] at hok
        exact ih hm hok
      · simp only [hsearch] at hok
        refine ih ?_ hok
        intro kv hkv
        rcases mem_pyInsert verBEq hkv with ⟨p, hp, hkvp⟩ | hkvp
        · exact hkvp ▸ hm p hp
        · have hlen : 2 ≤ ver.length := rocmSearch_two_le hsearch
          rw [hkvp]
          simp only [List.length_append, List.length_replicate]
          omega

lemma fetchTagsGo_error :
    ∀ {lines : List (List Char)} {m : List (List Nat × String)},
      (∃ l ∈ lines, (splitOnC '\t' l).get? 1 = none) →
      fetchTagsGo m lines = .error .indexError := by
  intro lines
  induction lines with
  | nil => intro m h; simp at h
  | cons line rest ih =>
    intro m h
    rw [fetchTagsGo]
    rcases hcol : (splitOnC '\t' line).get? 1 with _ | tagRef
    · simp only [hcol]
    · have hrest : ∃ l ∈ rest, (splitOnC '\t' l).get? 1 = none := by
        rcases h with ⟨l, hl, hnone⟩
        rcases List.mem_cons.mp hl with rfl | hl₂
        · rw [hcol] at hnone; simp at hnone
        · exact ⟨l, hl₂, hnone⟩
      simp only [hcol]
      rcases hsearch : rocmSearch tagRef with _ | ver <;> simp only [hsearch] <;> exact ih hrest

lemma splitOnC_ne_nil (sep : Char) : ∀ l : List Char, splitOnC sep l ≠ [] := by
  intro l
  cases l with
  | nil => simp [splitOnC]
  | cons c cs =>
    rw [splitOnC]
    rcases h : splitOnC sep cs with _ | ⟨g, gs⟩
    · simp
    · by_cases hc : c = sep <;> simp [hc]

lemma length_splitOnC (sep : Char) :
    ∀ l : List Char, (splitOnC sep l).length = (l.filter (fun c => c == sep)).length + 1 := by
  intro l
  induction l with
  | nil => simp [splitOnC]
  | cons c cs ih =>
    rw [splitOnC]
    rcases h : splitOnC sep cs with _ | ⟨g, gs⟩
    · exact absurd h (splitOnC_ne_nil sep cs)
    · rw [h] at ih
      simp only [List.length_cons] at ih
      by_cases hc : c = sep <;> simp [hc, List.filter_cons] <;> omega

lemma splitOnC_get?_one_eq_none_of_not_mem {sep : Char} {l : List Char} (h : sep ∉ l) :
    (splitOnC sep l).get? 1 = none := by
  have hfil : l.filter (fun c => c == sep) = [] := by
    rw [List.filter_eq_nil_iff]
    intro a ha
    simp only [beq_iff_eq]
    intro hc
    exact h (hc ▸ ha)
  have hlen : (splitOnC sep l).length = 1 := by
    rw [length_splitOnC, hfil]
    simp
  exact List.get?_eq_none.mpr (by omega)

/-! ## Lemmas about the PEP 440 order and the create_data_dict worklist -/

lemma lexLe_refl : ∀ l : List Nat, lexLe l l = true := by
  intro l
  induction l with
  | nil => rfl
  | cons x xs ih => simp [lexLe, ih]

lemma lexLe_total : ∀ a b : List Nat, lexLe a b = true ∨ lexLe b a = true := by
  intro a
  induction a with
  | nil => intro b; left; rfl
  | cons x xs ih =>
    intro b
    cases b with
    | nil => right; rfl
    | cons y ys =>
      rcases Nat.lt_trichotomy x y with hxy | hxy | hxy
      · left; simp [lexLe, hxy]
      · rcases ih ys with h | h
        · left; simp [lexLe, hxy, h]
        · right; simp [lexLe, hxy, h]
      · right; simp [lexLe, hxy]

lemma lexLe_trans : ∀ a b c : List Nat, lexLe a b = true → lexLe b c = true →
    lexLe a c = true := by
  intro a
  induction a with
  | nil => intro b c _ _; rfl
  | cons x xs ih =>
    intro b c hab hbc
    cases b with
    | nil => simp [lexLe] at hab
    | cons y ys =>
      cases c with
      | nil => simp [lexLe] at hbc
      | cons z zs =>
        simp only [lexLe, Bool.or_eq_true, Bool.and_eq_true, decide_eq_true_eq,
          beq_iff_eq] at hab hbc ⊢
        rcases hab with hab | ⟨hab, hab₂⟩ <;> rcases hbc with hbc | ⟨hbc, hbc₂⟩
        · exact Or.inl (hab.trans hbc)
        · exact Or.inl (hbc ▸ hab)
        · exact Or.inl (hab ▸ hbc)
        · exact Or.inr ⟨hab.trans hbc, ih ys zs hab₂ hbc₂⟩

lemma lexLe_append_replicate_zero :
    ∀ (a b : List Nat) (k : Nat), a.length = b.length →
      lexLe (a ++ List.replicate k 0) (b ++ List.replicate k 0) = lexLe a b := by
  intro a
  induction a with
  | nil =>
    intro b k hlen
    have hb : b = [] := List.eq_nil_of_length_eq_zero hlen.symm
    subst hb
    simp [lexLe_refl, lexLe]
  | cons x xs ih =>
    intro b k hlen
    cases b with
    | nil => simp at hlen
    | cons y ys =>
      simp only [List.length_cons, Nat.succ.injEq] at hlen
      simp [lexLe, ih ys k hlen]

lemma padTo_length {l : List Nat} {n : Nat} (h : l.length ≤ n) : (padTo n l).length = n := by
  simp only [padTo, List.length_append, List.length_replicate]
  omega

lemma padTo_add {l : List Nat} {m k : Nat} (h : l.length ≤ m) :
    padTo (m + k) l = padTo m l ++ List.replicate k 0 := by
  simp only [padTo, List.append_assoc, List.append_cancel_left_eq, ← List.replicate_add]
  congr 1
  omega

lemma verLe_eq_lexLe_padTo {a b : List Nat} {n : Nat} (ha : a.length ≤ n)
    (hb : b.length ≤ n) : verLe a b = lexLe (padTo n a) (padTo n b) := by
  set m := max a.length b.length with hm
  have hmn : m ≤ n := by omega
  have hna : padTo n a = padTo m a ++ List.replicate (n - m) 0 := by
    rw [← padTo_add (le_max_left _ _)]
    congr 1
    omega
  have hnb : padTo n b = padTo m b ++ List.replicate (n - m) 0 := by
    rw [← padTo_add (le_max_right _ _)]
    congr 1
    omega
  rw [verLe, hna, hnb, lexLe_append_replicate_zero]
  rw [padTo_length (le_max_left _ _), padTo_length (le_max_right _ _)]

instance : IsTotal (List Nat) verLeP where
  total := by
    intro a b
    unfold verLeP verLe
    rw [Nat.max_comm b.length a.length]
    exact lexLe_total _ _

instance : IsTrans (List Nat) verLeP where
  trans := by
    intro a b c hab hbc
    unfold verLeP at hab hbc ⊢
    set n := max (max a.length b.length) c.length with hn
    have h₁ : verLe a b = lexLe (padTo n a) (padTo n b) :=
      verLe_eq_lexLe_padTo (by omega) (by omega)
    have h₂ : verLe b c = lexLe (padTo n b) (padTo n c) :=
      verLe_eq_lexLe_padTo (by omega) (by omega)
    have h₃ : verLe a c = lexLe (padTo n a) (padTo n c) :=
      verLe_eq_lexLe_padTo (by omega) (by omega)
    rw [h₃]
    exact lexLe_trans _ _ _ (h₁ ▸ hab) (h₂ ▸ hbc)

lemma mem_dataDictVersions {tags : List (List Nat × String)} {maxV v : List Nat} :
    v ∈ dataDictVersions tags maxV ↔ (v ∈ tags.map Prod.fst ∨ v = maxV) := by
  unfold dataDictVersions
  rw [(List.perm_insertionSort verLeP _).mem_iff]
  simp

lemma sorted_dataDictVersions (tags : List (List Nat × String)) (maxV : List Nat) :
    (dataDictVersions tags maxV).Sorted verLeP :=
  List.sorted_insertionSort verLeP _

lemma mem_pyInsert_foldl (cond : List Nat → Bool) (mk : List Nat → ReleaseBundle) :
    ∀ (versions : List (List Nat)) (acc : List (String × ReleaseBundle))
      (x : String × ReleaseBundle),
      x ∈ versions.foldl (fun data version =>
        if cond version then
          pyInsert (fun a b => a == b) data (versionStr version) (mk version)
        else data) acc →
      x ∈ acc ∨ ∃ v ∈ versions, cond v = true ∧ x = (versionStr v, mk v) := by
  intro versions
  induction versions with
  | nil => intro acc x hx; exact Or.inl hx
  | cons v vs ih =>
    intro acc x hx
    rw [List.foldl_cons] at hx
    rcases ih _ x hx with hx₂ | ⟨w, hw, hcw, hxw⟩
    · by_cases hc : cond v = true
      · rw [hc] at hx₂
        simp only [if_true] at hx₂
        rcases mem_pyInsert_beq hx₂ with hmem | hxv
        · exact Or.inl hmem
        · exact Or.inr ⟨v, List.mem_cons_self v vs, hc, hxv⟩
      · rw [Bool.of_not_eq_true hc] at hx₂
        simp only [Bool.false_eq_true, if_false] at hx₂
        exact Or.inl hx₂
    · exact Or.inr ⟨w, List.mem_cons_of_mem v hw, hcw, hxw⟩

/-! ## Helper lemmas about dotted components -/

lemma numComponents_eq_countDots (s : String) : numComponents s = countDots s + 1 := by
  unfold numComponents countDots
  exact length_splitOnC '.' s.toList

lemma countDots_append_dot_zero (s : String) : countDots (s ++ ".0") = countDots s + 1 := by
  unfold countDots
  have hdata : (s ++ ".0").toList = s.toList ++ ['.', '0'] := by
    show (s ++ ".0").data = s.data ++ ['.', '0']
    rw [String.data_append]
  rw [hdata, List.filter_append]
  simp

lemma ne_append_dot_zero (s : String) : s ≠ s ++ ".0" := by
  intro h
  have hlen := congrArg (fun t => t.data.length) h
  simp only [String.data_append] at hlen
  simp at hlen

/-! ## Claim theorems -/

/-- C1, counterexample: `do_release` catches *every* exception of the
tag-and-release call, not only an already-exists collision.  At a concrete
entry whose tag-and-release call fails with an error that is not an
already-exists collision (an HTTP 500), the operation still completes as a
no-op instead of propagating the failure, refuting the claim that any
failure other than the already-exists collision propagates to the
caller. -/
theorem c1_counterexample :
    (ReleaseLib.do_release
        { name := "rocBLAS", rocm_version := "6.1.0", commit := "abc123" } true
        (.error (.apiFailure "HTTP 500 server error")) (.ok ())).1 = .ok ()
    ∧ GhError.apiFailure "HTTP 500 server error" ≠ GhError.alreadyExists := by
  constructor
  · rfl
  · intro h
    exact GhError.noConfusion h

/-- C1, amended: for every `ReleaseLib` entry on which the confirmed
Tag+Release transition is performed, *any* failure of tag or release
creation — whether an already-exists collision or any other error — is
caught by the broad `except Exception` and treated as a benign no-op
(printing `Already released`); no failure propagates to the caller. -/
theorem c1_amended (l : ReleaseLib) (confirmed : Bool)
    (tagAndReleaseOutcome aliasTagOutcome : Except GhError Unit) :
    (l.do_release confirmed tagAndReleaseOutcome aliasTagOutcome).1 = .ok () := by
  cases confirmed
  · rfl
  · cases tagAndReleaseOutcome
    · rfl
    · by_cases h : l.rocm_version ≠ l.full_version <;>
        cases aliasTagOutcome <;> simp [ReleaseLib.do_release, h]

/-- C2, counterexample: the scratch-directory cleanup `shutil.rmtree` at
line 157 is not in a `finally` block, so when the push step raises, the
failure propagates but the scratch clone directory is left on disk,
refuting the claim that the directory is removed regardless of outcome. -/
theorem c2_counterexample :
    (ReleaseLib.do_create_pull true { pushFork := .error "push rejected" }).dirRemains = true
    ∧ (ReleaseLib.do_create_pull true
        { pushFork := .error "push rejected" }).result = .error "push rejected" := by
  constructor <;> rfl

/-- C2, amended: for every confirmed back-port invocation, the scratch
clone directory is removed exactly when the clone-scope steps (the two
fetches, the checkout, and the push) all succeed — in particular it is
already removed before the pull-request call, so a PR-creation failure
leaves no directory — while a failure of any step inside the clone scope
leaves the directory on disk; in every case a failing step makes the
call propagate an error to the caller uncaught. -/
theorem c2_amended (env : PullEnv) :
    ((ReleaseLib.do_create_pull true env).dirRemains = false ↔
      (env.fetchExternal.isOk = true ∧ env.fetchFork.isOk = true
        ∧ env.checkoutRelease.isOk = true ∧ env.pushFork.isOk = true))
    ∧ ((ReleaseLib.do_create_pull true env).result.isOk = true ↔
      (env.fetchExternal.isOk = true ∧ env.fetchFork.isOk = true
        ∧ env.checkoutRelease.isOk = true ∧ env.pushFork.isOk = true
        ∧ env.createPull.isOk = true)) := by
  rcases env with ⟨d, f₁, f₂, f₃, f₄, f₅⟩
  cases f₁ <;> cases f₂ <;> cases f₃ <;> cases f₄ <;> cases f₅ <;>
    simp [ReleaseLib.do_create_pull, Except.isOk, Except.toBool]

/-- C8, counterexample: a `ReleaseLib` whose `rocm_version` is the
1-component string `6` is constructible, and for it `full_version` is
`6.0`, which has 2 dotted components rather than the claimed 3; moreover
the alias tag `rocm-6` is still created during a confirmed Tag+Release
even though the original version did not have exactly 2 components. -/
theorem c8_counterexample :
    ({ rocm_version := "6", commit := "deadbeef" : ReleaseLib }).full_version = "6.0"
    ∧ numComponents ({ rocm_version := "6", commit := "deadbeef" : ReleaseLib }).full_version = 2
    ∧ GhAction.gitTag "rocm-6" "" "deadbeef" ∈
        (ReleaseLib.do_release { rocm_version := "6", commit := "deadbeef" } true
          (.ok ()) (.ok ())).2 := by
  refine ⟨rfl, by decide, ?_⟩
  decide

/-- C8, amended: for every `ReleaseLib` whose `rocm_version` has 2 or 3
dotted numeric components, the derived tag name equals `rocm-` followed by
`full_version`, `full_version` has exactly 3 dotted components, and during
a confirmed Tag+Release whose combined tag-and-release call succeeds, the
alias tag `rocm-{original rocm_version}` pointing at the same resolved
commit is created if and only if the original version string had exactly
2 components (equivalently, iff `rocm_version` differs from
`full_version`).  A 1-component original also triggers the alias and then
`full_version` has only 2 components, which is what restricts the claim. -/
theorem c8_amended (l : ReleaseLib)
    (h : numComponents l.rocm_version = 2 ∨ numComponents l.rocm_version = 3) :
    l.tag = "rocm-" ++ l.full_version
    ∧ numComponents l.full_version = 3
    ∧ ∀ aliasTagOutcome : Except GhError Unit,
        (GhAction.gitTag ("rocm-" ++ l.rocm_version) l.data.message l.commit
            ∈ (l.do_release true (.ok ()) aliasTagOutcome).2
          ↔ numComponents l.rocm_version = 2) := by
  rw [numComponents_eq_countDots] at h
  refine ⟨rfl, ?_, ?_⟩
  · rcases h with h | h
    · have hdots : countDots l.rocm_version = 1 := by omega
      have hfull : l.full_version = l.rocm_version ++ ".0" := by
        unfold ReleaseLib.full_version
        rw [if_neg (by omega)]
      rw [hfull, numComponents_eq_countDots, countDots_append_dot_zero, hdots]
    · have hdots : countDots l.rocm_version = 2 := by omega
      have hfull : l.full_version = l.rocm_version := by
        unfold ReleaseLib.full_version
        rw [if_pos (by omega)]
      rw [hfull, numComponents_eq_countDots, hdots]
  · intro aliasTagOutcome
    rcases h with h | h
    · have hne : l.rocm_version ≠ l.full_version := by
        unfold ReleaseLib.full_version
        rw [if_neg (by omega)]
        exact ne_append_dot_zero _
      constructor
      · intro _
        rw [numComponents_eq_countDots]
        omega
      · intro _
        unfold ReleaseLib.do_release
        cases aliasTagOutcome <;> simp [hne]
    · have heq : l.rocm_version = l.full_version := by
        unfold ReleaseLib.full_version
        rw [if_pos (by omega)]
      constructor
      · intro hmem
        unfold ReleaseLib.do_release at hmem
        simp [heq] at hmem
      · intro hcomp
        rw [numComponents_eq_countDots] at hcomp
        omega

/-- C8, witness for the amended theorem at a 2-component version `6.1`:
the tag is `rocm-6.1.0`, the full version has 3 components, and the alias
tag `rocm-6.1` at the entry's commit is in the trace of the confirmed
Tag+Release. -/
theorem c8_amended_witness :
    ({ rocm_version := "6.1", commit := "c0ffee" : ReleaseLib }).tag
        = "rocm-" ++ ({ rocm_version := "6.1", commit := "c0ffee" : ReleaseLib }).full_version
    ∧ numComponents ({ rocm_version := "6.1", commit := "c0ffee" : ReleaseLib }).full_version = 3
    ∧ (GhAction.gitTag "rocm-6.1" "" "c0ffee" ∈
        (ReleaseLib.do_release { rocm_version := "6.1", commit := "c0ffee" } true
          (.ok ()) (.ok ())).2
        ↔ numComponents ({ rocm_version := "6.1", commit := "c0ffee" : ReleaseLib }).rocm_version
            = 2) := by
  have h := c8_amended { rocm_version := "6.1", commit := "c0ffee" } (Or.inl (by decide))
  exact ⟨h.1, h.2.1, h.2.2 (.ok ())⟩

/-- C10: a `ReleaseBundle` constructed with no arguments has as its
`libraries` field a freshly default-constructed `ReleaseLib` object —
because the dataclass field declares `default_factory=ReleaseLib` — and
not an empty name-to-entry mapping; its `version` field defaults to the
empty string. -/
theorem c10_default_bundle :
    ReleaseBundle.defaultConstructed.version = .str ""
    ∧ ReleaseBundle.defaultConstructed.libraries = .lib {}
    ∧ ∀ m : List (String × ReleaseLib),
        ReleaseBundle.defaultConstructed.libraries ≠ .dict m := by
  refine ⟨rfl, rfl, ?_⟩
  intro m h
  exact BundleLibrariesField.noConfusion h

/-- C3, counterexample: a raw tag with four dotted numeric components,
`rocm-6.2.0.1`, is matched by the pattern and inserted without truncation
or padding, so the resulting map has a key with 4 components, refuting
the claim that no key of the result has more or fewer than 3
components. -/
theorem c3_counterexample :
    fetchTags "c1\trefs/tags/rocm-6.2.0.1" = .ok [([6, 2, 0, 1], "c1")]
    ∧ ([6, 2, 0, 1] : List Nat).length ≠ 3 := by
  constructor
  · decide
  · decide

/-- C3, amended: every version key of the map returned by `fetch_tags`
has at least 3 numeric components: a matched `rocm-` version string with
fewer than 3 dotted components (the pattern guarantees at least 2) is
right-padded with `.0` segments to exactly 3 components before insertion,
so no key has fewer than 3 components — but a matched string with more
than 3 components is inserted unchanged, so keys may exceed 3. -/
theorem c3_amended (listing : String) (m : List (List Nat × String))
    (hok : fetchTags listing = .ok m) :
    ∀ kv ∈ m, 3 ≤ kv.1.length := by
  unfold fetchTags at hok
  exact fetchTagsGo_ok_keys (by intro kv hkv; simp at hkv) hok

/-- C3, witness: the amended theorem applied to the concrete listing
`c1 TAB refs/tags/rocm-6.1`, whose single matched tag is padded to the
3-component key `6.1.0`. -/
theorem c3_amended_witness :
    fetchTags "c1\trefs/tags/rocm-6.1" = .ok [([6, 1, 0], "c1")]
    ∧ 3 ≤ ([6, 1, 0] : List Nat).length :=
  ⟨by decide,
    c3_amended "c1\trefs/tags/rocm-6.1" [([6, 1, 0], "c1")] (by decide)
      ([6, 1, 0], "c1") (by decide)⟩

/-- C4: on the listing pairing refs `rocm-6.1`, `rocm-6.1.0`,
`rocm-6.2.1`, `unrelated-tag` with commits `c1..c4`, `fetch_tags` returns
exactly 2 entries — `6.1.0 ↦ c2` (the later listing entry overwriting
`c1`) and `6.2.1 ↦ c3` — with the non-matching ref excluded; and in
general inserting a later raw tag whose canonicalized version equals an
existing key overwrites its value (last in listing order wins). -/
theorem c4_tag_listing_last_wins :
    fetchTags
        "c1\trefs/tags/rocm-6.1\nc2\trefs/tags/rocm-6.1.0\nc3\trefs/tags/rocm-6.2.1\nc4\trefs/tags/unrelated-tag"
      = .ok [([6, 1, 0], "c2"), ([6, 2, 1], "c3")]
    ∧ ∀ (m : List (List Nat × String)) (k v : List Nat) (sha : String),
        verBEq k v = true →
        pyLookup verBEq (pyInsert verBEq m k sha) v = some sha :=
  ⟨by decide, fun m k v sha h => pyLookup_pyInsert_verBEq m k v sha h⟩

/-- C4, witness: the general last-wins conjunct applied concretely —
inserting `6.1 ↦ c2` into a map holding `6.1.0 ↦ c1` makes the lookup of
`6.1.0` return `c2`. -/
theorem c4_witness :
    pyLookup verBEq (pyInsert verBEq [([6, 1, 0], "c1")] [6, 1] "c2") [6, 1, 0]
      = some "c2" :=
  c4_tag_listing_last_wins.2 [([6, 1, 0], "c1")] [6, 1] [6, 1, 0] "c2" (by decide)

/-- C9: `fetch_tags` is only defined on listings whose every line has a
tab separator: on the empty listing (a repository with no tags, whose
single split line is empty) it fails with the out-of-bounds `column[1]`
IndexError, and in general any listing containing a line with no tab
makes it fail with that IndexError instead of skipping the line or
returning a map. -/
theorem c9_no_tab_line_errors :
    fetchTags "" = .error .indexError
    ∧ ∀ listing : String,
        (∃ line ∈ splitOnC '\n' listing.toList, '\t' ∉ line) →
        fetchTags listing = .error .indexError := by
  constructor
  · decide
  · intro listing h
    rcases h with ⟨line, hline, htab⟩
    unfold fetchTags
    exact fetchTagsGo_error ⟨line, hline, splitOnC_get?_one_eq_none_of_not_mem htab⟩

/-- C9, witness: the general conjunct applied to a one-line listing whose
line has no tab. -/
theorem c9_witness :
    fetchTags "deadbeef refs-tags-rocm-6.1.0" = .error .indexError :=
  c9_no_tab_line_errors.2 "deadbeef refs-tags-rocm-6.1.0"
    ⟨"deadbeef refs-tags-rocm-6.1.0".toList, by decide, by decide⟩

/-- C5: for every component processed by `create_release_bundle_data`
(component names distinct, as in the manifest) whose requested version is
absent from its tag index: with the untagged-fallback flag false the
component is absent from the bundle and no error is raised; with the flag
true and the configured release branch missing, the component is absent
and exactly one advisory entry naming that branch and component is
recorded in the missing-branches list; with the flag true and the branch
present, the component is included with the branch tip commit and no
missing-branches entry is recorded. -/
theorem c5_fallback_policy (env : FactoryEnv) (version : List Nat)
    (comps : List Component) (is_untagged : Bool) (c : Component)
    (hnd : (comps.map (fun d => d.name)).Nodup) (hmem : c ∈ comps)
    (habsent : getTag env c.name version = none) :
    (is_untagged = false →
      pyLookup (fun a b => a == b)
        (create_release_bundle_data env version comps is_untagged).1.entries c.name = none)
    ∧ (is_untagged = true → env.branchTip c.name = none →
        pyLookup (fun a b => a == b)
          (create_release_bundle_data env version comps is_untagged).1.entries c.name = none
        ∧ (create_release_bundle_data env version comps is_untagged).2.count
            (missingEntryStr env c) = 1)
    ∧ (∀ t : String, is_untagged = true → env.branchTip c.name = some t →
        (∃ lib : ReleaseLib,
          pyLookup (fun a b => a == b)
            (create_release_bundle_data env version comps is_untagged).1.entries c.name
              = some lib ∧ lib.commit = t)
        ∧ missingEntryStr env c ∉ (create_release_bundle_data env version comps is_untagged).2) := by
  have hkeys : ((includedEntries env version is_untagged none none comps).map Prod.fst).Nodup := by
    rw [includedEntries_keys]
    exact List.Nodup.sublist ((List.filter_sublist _).map _) hnd
  have h₁ := bundleLoop_libs env version is_untagged comps {}
  dsimp only at h₁
  have hentries : (create_release_bundle_data env version comps is_untagged).1.entries
      = includedEntries env version is_untagged none none comps := by
    show (bundleLoop env version is_untagged {} comps).libs = _
    rw [h₁]
    have h₂ := pyInsertAll_eq_append
      (includedEntries env version is_untagged none none comps) [] (by simp) hkeys
    simpa using h₂
  have h₃ := bundleLoop_missing env version is_untagged comps {}
  dsimp only at h₃
  have hmissing : (create_release_bundle_data env version comps is_untagged).2
      = missingList env version is_untagged comps := by
    show (bundleLoop env version is_untagged {} comps).missing = _
    rw [h₃]
    simp
  refine ⟨?_, ?_, ?_⟩
  · intro hflag
    subst hflag
    have hres : resolveCommit env version false c = .skip := by
      unfold resolveCommit
      rw [habsent]
      simp
    rw [hentries]
    exact pyLookup_includedEntries_of_not_use env version false comps none none hnd hmem
      (fun t ht => CommitRes.noConfusion (hres ▸ ht))
  · intro hflag hbranch
    subst hflag
    have hres : resolveCommit env version true c = .missingBranch := by
      unfold resolveCommit
      rw [habsent, hbranch]
      simp
    constructor
    · rw [hentries]
      exact pyLookup_includedEntries_of_not_use env version true comps none none hnd hmem
        (fun t ht => CommitRes.noConfusion (hres ▸ ht))
    · rw [hmissing]
      exact count_missingList_of_missing env version true comps hnd hmem hres
  · intro t hflag hbranch
    subst hflag
    have hres : resolveCommit env version true c = .use t := by
      unfold resolveCommit
      rw [habsent, hbranch]
      simp
    constructor
    · rw [hentries]
      exact pyLookup_includedEntries_of_use env version true comps none none hnd hmem hres
    · rw [hmissing]
      exact not_mem_missingList_of_not_missing env version true comps hnd hmem
        (fun hc => CommitRes.noConfusion (hres ▸ hc))

/-- Concrete factory environment for the C5 scenarios: no component has
any tag, and only `libB` has a release branch (with tip `tip-b`). -/
def c5Env : FactoryEnv :=
  { repos := fun n => ({ full_name := "ROCm/" ++ n, name := n, clone_url := "url-" ++ n },
                       { full_name := "internal/" ++ n, name := n, clone_url := "iurl-" ++ n })
    tagIndex := fun _ => []
    branchTip := fun n => if n = "libB" then some "tip-b" else none
    branch := "release/rocm-rel-7.0"
    groupMapping := fun g => g
    categoryMapping := fun k => k }

/-- First sample component for the C5 witness. -/
def c5A : Component := { name := "libA", remote := "r", group := "G", category := "K" }

/-- Second sample component for the C5 witness. -/
def c5B : Component := { name := "libB", remote := "r", group := "G", category := "K" }

/-- C5, witness: at the concrete environment, an untagged component is
skipped when the flag is false; with the flag true, `libA` (no branch) is
skipped with exactly one advisory entry, while `libB` is included with
the branch tip commit and no advisory entry. -/
theorem c5_witness :
    (pyLookup (fun a b => a == b)
        (create_release_bundle_data c5Env [7, 0, 0] [c5A, c5B] false).1.entries "libA" = none)
    ∧ (pyLookup (fun a b => a == b)
        (create_release_bundle_data c5Env [7, 0, 0] [c5A, c5B] true).1.entries "libA" = none
      ∧ (create_release_bundle_data c5Env [7, 0, 0] [c5A, c5B] true).2.count
          (missingEntryStr c5Env c5A) = 1)
    ∧ ((∃ lib : ReleaseLib,
          pyLookup (fun a b => a == b)
            (create_release_bundle_data c5Env [7, 0, 0] [c5A, c5B] true).1.entries "libB"
              = some lib ∧ lib.commit = "tip-b")
      ∧ missingEntryStr c5Env c5B ∉
          (create_release_bundle_data c5Env [7, 0, 0] [c5A, c5B] true).2) :=
  ⟨(c5_fallback_policy c5Env [7, 0, 0] [c5A, c5B] false c5A (by decide) (by decide)
      (by decide)).1 rfl,
   (c5_fallback_policy c5Env [7, 0, 0] [c5A, c5B] true c5A (by decide) (by decide)
      (by decide)).2.1 rfl (by decide),
   (c5_fallback_policy c5Env [7, 0, 0] [c5A, c5B] true c5B (by decide) (by decide)
      (by decide)).2.2 "tip-b" rfl (by decide)⟩

/-- C6: within one `create_release_bundle_data` call (component names
distinct), given that the external label tables map the empty key to the
empty string, the display group of each included component is the empty
string exactly when its group key equals the group key of the immediately
preceding included component (skipped components do not update the
previous value) and otherwise is the mapped label text which becomes the
new previous value — the entries' group column equals the run-length
suppression of the included components' group keys, and likewise for the
category column; the previous-label state is local to one call, starting
at `none`. -/
theorem c6_group_label_suppression (env : FactoryEnv) (version : List Nat)
    (comps : List Component) (is_untagged : Bool)
    (hnd : (comps.map (fun d => d.name)).Nodup)
    (hgm : env.groupMapping "" = "") (hcm : env.categoryMapping "" = "") :
    ((create_release_bundle_data env version comps is_untagged).1.entries.map
        (fun e => e.2.group)
      = rlSuppress env.groupMapping none
          ((comps.filter (isIncluded env version is_untagged)).map (fun c => c.group)))
    ∧ ((create_release_bundle_data env version comps is_untagged).1.entries.map
        (fun e => e.2.category)
      = rlSuppress env.categoryMapping none
          ((comps.filter (isIncluded env version is_untagged)).map (fun c => c.category))) := by
  have hkeys : ((includedEntries env version is_untagged none none comps).map Prod.fst).Nodup := by
    rw [includedEntries_keys]
    exact List.Nodup.sublist ((List.filter_sublist _).map _) hnd
  have h₁ := bundleLoop_libs env version is_untagged comps {}
  dsimp only at h₁
  have hentries : (create_release_bundle_data env version comps is_untagged).1.entries
      = includedEntries env version is_untagged none none comps := by
    show (bundleLoop env version is_untagged {} comps).libs = _
    rw [h₁]
    have h₂ := pyInsertAll_eq_append
      (includedEntries env version is_untagged none none comps) [] (by simp) hkeys
    simpa using h₂
  rw [hentries]
  exact ⟨includedEntries_groups env version is_untagged hgm comps none none,
    includedEntries_categories env version is_untagged hcm comps none none⟩

/-- Concrete factory environment for the C6 witness: every component is
tagged at `9.0.0`, and the label tables prefix `M`/`N` to nonempty
keys. -/
def c6Env : FactoryEnv :=
  { repos := fun n => ({ full_name := n }, { full_name := n })
    tagIndex := fun _ => [([9, 0, 0], "s")]
    branchTip := fun _ => none
    branch := "release/rocm-rel-9.0"
    groupMapping := fun g => if g = "" then "" else "M" ++ g
    categoryMapping := fun k => if k = "" then "" else "N" ++ k }

/-- Three components in order with group keys `G1, G1, G2` for the C6
witness. -/
def c6Comps : List Component :=
  [{ name := "a", group := "G1", category := "K1" },
   { name := "b", group := "G1", category := "K2" },
   { name := "c", group := "G2", category := "K2" }]

/-- C6, witness: three included components with group keys `G1, G1, G2`
produce display-group values `MG1, "", MG2` — the middle one suppressed. -/
theorem c6_witness :
    (create_release_bundle_data c6Env [9, 0, 0] c6Comps false).1.entries.map
        (fun e => e.2.group)
      = ["MG1", "", "MG2"] :=
  ((c6_group_label_suppression c6Env [9, 0, 0] c6Comps false (by decide)
      (by decide) (by decide)).1).trans (by decide)

/-- Concrete factory environment for the C7 scenarios: component `libA`
is tagged at `6.0.0` and `6.1.0`, and every component has a release
branch whose tip is `tip-` followed by its name. -/
def c7Env : FactoryEnv :=
  { repos := fun n => ({ full_name := "ROCm/" ++ n, name := n, clone_url := "u-" ++ n },
                       { full_name := "int/" ++ n, name := n, clone_url := "iu-" ++ n })
    tagIndex := fun n => if n = "libA" then [([6, 0, 0], "a600"), ([6, 1, 0], "a610")] else []
    branchTip := fun n => some ("tip-" ++ n)
    branch := "release/rocm-rel-6.2"
    groupMapping := fun g => if g = "" then "" else "G-" ++ g
    categoryMapping := fun k => if k = "" then "" else "C-" ++ k }

/-- Product tag listing for the C7 scenarios: versions `6.0.0` and
`6.1.0` are tagged. -/
def c7Listing : String := "p0\trefs/tags/rocm-6.0.0\np1\trefs/tags/rocm-6.1.0"

/-- Sample component for the C7 scenarios. -/
def c7Comp : Component := { name := "libA", remote := "r", group := "g1", category := "k1" }

/-- The mapping produced by `create_data_dict` on the C7 positive
example. -/
def c7Data : List (String × ReleaseBundle) :=
  match create_data_dict c7Env c7Listing "6.2.0" [c7Comp] "6.0.0" with
  | some (.ok d) => d
  | _ => []

/-- C7, counterexample: with `up_to_version` spelled with 2 components
(`6.1`) while the equal product version `6.1.0` is already tagged, the
containment test at line 443 (a str-vs-Version comparison that is always
false) appends the unpadded spelling anyway, and the resulting mapping
has *two* entries, keyed `6.1.0` and `6.1`, for the single product
version `6.1` — refuting the claim that the mapping has exactly one
bundle per product version in range. -/
theorem c7_counterexample :
    Option.map (Except.map (List.map Prod.fst))
        (create_data_dict c7Env c7Listing "6.1" [c7Comp] "6.0.0")
      = some (.ok ["6.0.0", "6.1.0", "6.1"])
    ∧ verBEq [6, 1, 0] [6, 1] = true := by
  constructor <;> decide

/-- C7, amended: on the claim's own example — product tags `6.0.0` and
`6.1.0`, arguments `("6.2.0", components, "6.0.0")` — the result is keyed
exactly `6.0.0, 6.1.0, 6.2.0` in ascending order with the branch-tip
fallback commit used only for `6.2.0`; and in general the version
worklist contains exactly the fetched tag versions plus the parsed
`up_to_version` (appended unconditionally), is sorted ascending under the
PEP 440 order, and every entry of the returned mapping is the bundle
built for an in-range worklist version with the untagged-fallback flag
passed as true exactly when that version equals the maximum version.  The
claim's `exactly one bundle per product version` holds only when
`up_to_version` is written in canonical 3-component form (see the
counterexample). -/
theorem c7_data_dict_range :
    (Option.map (Except.map (List.map (fun p =>
          (p.1, p.2.entries.map (fun e => (e.1, e.2.commit))))))
        (create_data_dict c7Env c7Listing "6.2.0" [c7Comp] "6.0.0")
      = some (.ok [("6.0.0", [("libA", "a600")]), ("6.1.0", [("libA", "a610")]),
          ("6.2.0", [("libA", "tip-libA")])]))
    ∧ (∀ (tags : List (List Nat × String)) (maxV v : List Nat),
        v ∈ dataDictVersions tags maxV ↔ (v ∈ tags.map Prod.fst ∨ v = maxV))
    ∧ (∀ (tags : List (List Nat × String)) (maxV : List Nat),
        (dataDictVersions tags maxV).Sorted verLeP)
    ∧ (∀ (env : FactoryEnv) (listing up mins : String) (comps : List Component)
        (maxV minV : List Nat) (tags : List (List Nat × String))
        (data : List (String × ReleaseBundle)),
        parseVersion up = some maxV → parseVersion mins = some minV →
        fetchTags listing = .ok tags →
        create_data_dict env listing up comps mins = some (.ok data) →
        ∀ x ∈ data, ∃ v ∈ dataDictVersions tags maxV,
          (verLe minV v && verLe v maxV) = true
          ∧ x = (versionStr v,
              (create_release_bundle_data env v comps (verBEq v maxV)).1)) := by
  refine ⟨by decide, fun tags maxV v => mem_dataDictVersions,
    fun tags maxV => sorted_dataDictVersions tags maxV, ?_⟩
  intro env listing up mins comps maxV minV tags data hup hmin hfetch hdata x hx
  unfold create_data_dict at hdata
  rw [hup, hmin] at hdata
  simp only [hfetch, Option.some.injEq, bind, Except.bind, pure] at hdata
  have hdata₂ : (dataDictVersions tags maxV).foldl (fun data version =>
      if verLe minV version && verLe version maxV then
        pyInsert (fun a b => a == b) data (versionStr version)
          (create_release_bundle_data env version comps (verBEq version maxV)).1
      else data) [] = data := by
    exact Except.ok.inj hdata
  rw [← hdata₂] at hx
  rcases mem_pyInsert_foldl (fun v => verLe minV v && verLe v maxV)
      (fun v => (create_release_bundle_data env v comps (verBEq v maxV)).1)
      (dataDictVersions tags maxV) [] x hx with hnil | ⟨v, hv, hcond, hxv⟩
  · simp at hnil
  · exact ⟨v, hv, hcond, hxv⟩

/-- C7, witness: the provenance conjunct applied to the concrete
example: the `6.0.0` entry of the produced mapping comes from the
worklist version `6.0.0`, in range, built with the fallback flag
`verBEq 6.0.0 6.2.0 = false`. -/
theorem c7_witness :
    ∃ v ∈ dataDictVersions [([6, 0, 0], "p0"), ([6, 1, 0], "p1")] [6, 2, 0],
      (verLe [6, 0, 0] v && verLe v [6, 2, 0]) = true
      ∧ ("6.0.0", (create_release_bundle_data c7Env [6, 0, 0] [c7Comp] false).1)
          = (versionStr v,
              (create_release_bundle_data c7Env v [c7Comp] (verBEq v [6, 2, 0])).1) :=
  c7_data_dict_range.2.2.2 c7Env c7Listing "6.2.0" "6.0.0" [c7Comp] [6, 2, 0] [6, 0, 0]
    [([6, 0, 0], "p0"), ([6, 1, 0], "p1")] c7Data (by decide) (by decide) (by decide)
    (by decide)
    ("6.0.0", (create_release_bundle_data c7Env [6, 0, 0] [c7Comp] false).1) (by decide)

end ReleaseDataPy
